import Mathlib

/-!
Verification of the DeckForge flashcard pipeline.

Strings are modelled as lists of characters (`Str`).  JavaScript string and
regex operations used by the sources are embedded as executable functions:
`jsTrim` models `String.prototype.trim`, `collapseWs` models
`replace(/\s+/g, " ")`, `remEL` models `replace(/\n\s*\n/g, "\n")` (global
leftmost match, greedy `\s*` backtracking to the last newline of the
whitespace run, scanning resuming after the replacement), `hasSub` models
`String.prototype.includes`, and `hasClozeSpan` models the test
`match(/==[^=]+==/)`.
-/

namespace DeckForge

/-- Strings as lists of characters. -/
abbrev Str := List Char

/-- The JavaScript `\s` character class (also the class trimmed by
`String.prototype.trim`): ASCII whitespace, NBSP, Unicode space separators,
line/paragraph separators and the BOM. -/
def isWs (c : Char) : Bool :=
  c = ' ' || c = '\t' || c = '\n' || c = '\r' || c = '\x0b' || c = '\x0c' ||
  c.toNat = 0xA0 || c.toNat = 0x1680 ||
  (0x2000 ≤ c.toNat && c.toNat ≤ 0x200A) ||
  c.toNat = 0x2028 || c.toNat = 0x2029 || c.toNat = 0x202F ||
  c.toNat = 0x205F || c.toNat = 0x3000 || c.toNat = 0xFEFF

/-- JavaScript `String.prototype.trim`: drop leading and trailing whitespace. -/
def jsTrim (s : Str) : Str :=
  ((s.dropWhile isWs).reverse.dropWhile isWs).reverse

/-- State machine for `replace(/\s+/g, " ")`: `prevWs` records whether the
previous character was whitespace (i.e. we are inside a run that has already
emitted its single replacement space). -/
def collapseWsAux (prevWs : Bool) : Str → Str
  | [] => []
  | c :: rest =>
    if isWs c then
      if prevWs then collapseWsAux true rest
      else ' ' :: collapseWsAux true rest
    else c :: collapseWsAux false rest

/-- JavaScript `replace(/\s+/g, " ")`: every maximal run of whitespace
characters becomes a single space. -/
def collapseWs (s : Str) : Str :=
  collapseWsAux false s

/-- JavaScript `replace(/\n\s*\n/g, "\n")`.  A match starts at a newline,
greedily consumes following whitespace, and must end at a newline; greedy
backtracking makes the match end at the last newline of the whitespace run.
The replacement is a single newline and scanning resumes after the match. -/
def remEL : Str → Str
  | [] => []
  | c :: rest =>
    if c = '\n' then
      let run := rest.takeWhile isWs
      let tail := rest.dropWhile isWs
      if run.contains '\n' then
        let keep := (run.reverse.takeWhile (fun d => !(d = '\n'))).length
        '\n' :: remEL (run.drop (run.length - keep) ++ tail)
      else c :: remEL rest
    else c :: remEL rest
termination_by s => s.length
decreasing_by
  · simp only [List.length_append, List.length_drop]
    have h1 : (rest.takeWhile isWs).length + (rest.dropWhile isWs).length
        = rest.length := by
      rw [← List.length_append, rest.takeWhile_append_dropWhile]
    simp only [List.length_cons]
    omega
  · simp
  · simp

/-- `SpacedRepetitionFormatter.cleanText`:
`text.trim().replace(/\s+/g, " ").replace(/\n\s*\n/g, "\n")`. -/
def cleanText (s : Str) : Str :=
  remEL (collapseWs (jsTrim s))

/-- Does `pat` occur at the start of `s` (pattern argument first)? -/
def startsWith : Str → Str → Bool
  | [], _ => true
  | _ :: _, [] => false
  | p :: ps, c :: cs => p = c && startsWith ps cs

/-- JavaScript `String.prototype.includes`: does `pat` occur in `s`? -/
def hasSub (pat : Str) : Str → Bool
  | [] => pat.isEmpty
  | c :: rest => startsWith pat (c :: rest) || hasSub pat rest

/-- Does `pat` occur at the end of `s`? -/
def endsWith (pat s : Str) : Bool :=
  startsWith pat.reverse s.reverse

/-- Does the regex `/==[^=]+==/` match starting exactly at the head of `l`?
Greedy `[^=]+` consumes the maximal nonempty run of characters other than
the equals sign; the match succeeds iff two equals signs follow that run
(backtracking inside the run cannot help, since a shorter run is followed
by a character other than the equals sign). -/
def clozeAt : Str → Bool
  | '=' :: '=' :: rest =>
    let mid := rest.takeWhile (fun c => !(c = '='))
    let rest2 := rest.dropWhile (fun c => !(c = '='))
    !mid.isEmpty && startsWith ['=', '='] rest2
  | _ => false

/-- JavaScript `content.match(/==[^=]+==/)` viewed as a Boolean test:
does the regex match anywhere in the string? -/
def hasClozeSpan : Str → Bool
  | [] => false
  | c :: rest => clozeAt (c :: rest) || hasClozeSpan rest

/-- The `CardType` string enum of `types.ts`. -/
inductive CardType where
  | oneWay
  | bidirectional
  | multiLine
  | multiLineBidirectional
  | cloze
deriving DecidableEq, Repr

/-- The string value of each enum member. -/
def cardTypeStr : CardType → Str
  | .oneWay => "oneway".toList
  | .bidirectional => "bidirectional".toList
  | .multiLine => "multiline".toList
  | .multiLineBidirectional => "multiline-bidirectional".toList
  | .cloze => "cloze".toList

/-- `Object.values(CardType)` in declaration order. -/
def cardTypeValues : List Str :=
  [cardTypeStr .oneWay, cardTypeStr .bidirectional, cardTypeStr .multiLine,
   cardTypeStr .multiLineBidirectional, cardTypeStr .cloze]

/-- `RawFlashcard` of `types.ts`.  The `type` field is kept as a string:
the TypeScript declaration promises a `CardType`, but several call sites
(the validator, the allowed-type check) compare it as an untrusted string,
so the runtime value may be any string. -/
structure RawFlashcard where
  front : Str
  back : Str
  type : Str
  tags : Option (List Str)
deriving DecidableEq, Repr

/-- `FormattedFlashcard` of `types.ts`. -/
structure FormattedFlashcard where
  content : Str
  tags : List Str
deriving DecidableEq, Repr

/-- `SpacedRepetitionFormatter.formatCard`.  The switch on `card.type`
compares against the enum string values; the default branch throws
`Unsupported card type`, modelled by `Except.error`. -/
def formatCard (card : RawFlashcard) : Except Str FormattedFlashcard :=
  let content : Except Str Str :=
    if card.type = cardTypeStr .oneWay then
      .ok (cleanText card.front ++ [':', ':'] ++ cleanText card.back)
    else if card.type = cardTypeStr .bidirectional then
      .ok (cleanText card.front ++ [':', ':', ':'] ++ cleanText card.back)
    else if card.type = cardTypeStr .multiLine then
      .ok (cleanText card.front ++ ['?', '\n'] ++ cleanText card.back)
    else if card.type = cardTypeStr .multiLineBidirectional then
      .ok (cleanText card.front ++ ['?', '?', '?', '\n'] ++ cleanText card.back)
    else if card.type = cardTypeStr .cloze then
      .ok (cleanText card.front)
    else .error ("Unsupported card type: ".toList ++ card.type)
  content.map (fun c => ⟨c, card.tags.getD []⟩)

/-- `SpacedRepetitionFormatter.formatCards`: format every card and join
with a blank line; the empty list encodes to the empty string.  A throw
from `formatCard` propagates. -/
def formatCards (cards : List RawFlashcard) : Except Str Str :=
  if cards.isEmpty then .ok []
  else
    (cards.mapM (fun c => (formatCard c).map FormattedFlashcard.content)).map
      (List.intercalate ['\n', '\n'])

/-- `SpacedRepetitionFormatter.detectCardType`: priority-ordered substring
detection; the Cloze branch additionally requires a `/==[^=]+==/` match. -/
def detectCardType (content : Str) : Option CardType :=
  if hasSub ['?', '?', '?'] content then some .multiLineBidirectional
  else if hasSub [':', ':', ':'] content then some .bidirectional
  else if hasSub [':', ':'] content then some .oneWay
  else if hasSub ['?'] content then some .multiLine
  else if hasSub ['=', '='] content && hasClozeSpan content then some .cloze
  else none

/-- Composition checked by the round-trip property: encode a card, then
detect the card type of the resulting markup. -/
def roundTrip (card : RawFlashcard) : Option CardType :=
  ((formatCard card).map (fun fc => detectCardType fc.content)).toOption.join

/-- Spec-side description of type detection (§4.5 of the spec): an ordered
list of rules, first match wins, no match means "undetected". -/
def specDetectRules : List ((Str → Bool) × CardType) :=
  [(fun s => hasSub ['?', '?', '?'] s, .multiLineBidirectional),
   (fun s => hasSub [':', ':', ':'] s, .bidirectional),
   (fun s => hasSub [':', ':'] s, .oneWay),
   (fun s => hasSub ['?'] s, .multiLine),
   (fun s => hasSub ['=', '='] s && hasClozeSpan s, .cloze)]

/-- Spec-side detection: the type of the first rule whose test succeeds. -/
def specDetect (s : Str) : Option CardType :=
  (specDetectRules.find? (fun r => r.1 s)).map Prod.snd

/-- `BaseLLMProvider`'s stored configuration (`ProviderConfig` of
`types.ts`); every field is optional. -/
structure ProviderConfig where
  apiKey : Option Str
  endpoint : Option Str
  model : Option Str
  customHeaders : Option (List (Str × Str))
deriving DecidableEq, Repr

/-- The object literal returned by `BaseLLMProvider.getConfig`: it has
exactly the keys `endpoint`, `model` and `customHeaders` and no `apiKey`
key. -/
structure PublicProviderConfig where
  endpoint : Option Str
  model : Option Str
  customHeaders : Option (List (Str × Str))
deriving DecidableEq, Repr

/-- `BaseLLMProvider.getConfig`. -/
def getConfig (config : ProviderConfig) : PublicProviderConfig :=
  { endpoint := config.endpoint
    model := config.model
    customHeaders := config.customHeaders }

/-- Decimal rendering of a natural number (JavaScript `toString()` on the
numbers appearing here, which are all naturals). -/
def natToStr (n : Nat) : Str :=
  (Nat.repr n).toList

/-- JavaScript `toLowerCase` (the characters involved are ASCII). -/
def toLowerStr (s : Str) : Str :=
  s.map Char.toLower

/-- Expansion of `$`-escapes in a string replacement, as JavaScript
`String.prototype.replace` performs on each match: `$$` is a literal
dollar, `$&` the matched text, a dollar-backquote the part of the original
string before the match, a dollar-quote the part after it; any other
dollar sequence is kept literally (the regexes used here have no capture
groups). -/
def expandDollar (matched before after : Str) : Str → Str
  | [] => []
  | '$' :: d :: r =>
    if d = '$' then '$' :: expandDollar matched before after r
    else if d = '&' then matched ++ expandDollar matched before after r
    else if d.toNat = 0x60 then before ++ expandDollar matched before after r
    else if d.toNat = 0x27 then after ++ expandDollar matched before after r
    else '$' :: expandDollar matched before after (d :: r)
  | c :: r => c :: expandDollar matched before after r

/-- Scanner for a global replace of the literal pattern `pat` (a regex with
no metacharacters) by `repl` in the original string `orig`: `pos` is the
current index in `orig`, `skip` the number of characters of a match still
to be consumed.  Matches are leftmost, non-overlapping, and the expanded
replacement is not rescanned. -/
def replAux (orig pat repl : Str) : Nat → Nat → Str → Str
  | _, _, [] => []
  | pos, skip, c :: rest =>
    if 0 < skip then replAux orig pat repl (pos + 1) (skip - 1) rest
    else if startsWith pat (c :: rest) then
      expandDollar pat (orig.take pos) (orig.drop (pos + pat.length)) repl
        ++ replAux orig pat repl (pos + 1) (pat.length - 1) rest
    else c :: replAux orig pat repl (pos + 1) 0 rest

/-- JavaScript `orig.replace(/pat/g, repl)` for a literal pattern `pat`
(all uses in the sources have a nonempty literal pattern). -/
def replaceAll (pat repl s : Str) : Str :=
  replAux s pat repl 0 0 s

/-- `TemplateContext` of `prompt-template-system.ts`. -/
structure TemplateContext where
  title : Str
  content : Str
  wordCount : Nat
  maxCards : Option Nat
  cardTypes : List CardType
  tags : Option (List Str)
  metadata : Option (List (Str × Str))

/-- `PromptTemplateSystem.cardTypeToDisplayName`. -/
def cardTypeToDisplayName : CardType → Str
  | .oneWay => "one-way".toList
  | .bidirectional => "bidirectional".toList
  | .multiLine => "multi-line".toList
  | .multiLineBidirectional => "multi-line bidirectional".toList
  | .cloze => "cloze deletion".toList

/-- The substitution chain of `PromptTemplateSystem.renderTemplate`:
`{content}` first, then `{title}`, `{wordCount}`, `{maxCards}` (JavaScript
`context.maxCards || 5`, so `0` also falls back to 5), `{cardTypes}`,
`{tags}`/`{tagsInstruction}` and `{metadata}`, then a final trim. -/
def renderBody (tmpl : Str) (ctx : TemplateContext) : Str :=
  let r1 := replaceAll "{content}".toList ctx.content tmpl
  let r2 := replaceAll "{title}".toList ctx.title r1
  let r3 := replaceAll "{wordCount}".toList (natToStr ctx.wordCount) r2
  let maxCardsVal : Nat :=
    match ctx.maxCards with
    | some n => if n = 0 then 5 else n
    | none => 5
  let r4 := replaceAll "{maxCards}".toList (natToStr maxCardsVal) r3
  let cardTypesText :=
    List.intercalate ", ".toList (ctx.cardTypes.map cardTypeToDisplayName)
  let r5 := replaceAll "{cardTypes}".toList cardTypesText r4
  let r6 :=
    match ctx.tags with
    | some tags =>
      if 0 < tags.length then
        let tagsText := List.intercalate [' '] tags
        replaceAll "{tagsInstruction}".toList
          ("Apply these tags to each card: ".toList ++ tagsText)
          (replaceAll "{tags}".toList tagsText r5)
      else
        replaceAll "{tagsInstruction}".toList []
          (replaceAll "{tags}".toList [] r5)
    | none =>
      replaceAll "{tagsInstruction}".toList []
        (replaceAll "{tags}".toList [] r5)
  let r7 :=
    match ctx.metadata with
    | some md =>
      replaceAll "{metadata}".toList
        (List.intercalate ", ".toList
          (md.map (fun kv => kv.1 ++ ": ".toList ++ kv.2))) r6
    | none => replaceAll "{metadata}".toList [] r6
  jsTrim r7

/-- `PromptTemplateSystem.renderTemplate`: look the template body up by id
(unknown ids throw, modelled by `none`) and render it. -/
def renderTemplate (templates : List (Str × Str)) (templateId : Str)
    (ctx : TemplateContext) : Option Str :=
  (templates.lookup templateId).map (fun tmpl => renderBody tmpl ctx)

/-- `GenerationOptions` of `types.ts`.  Card types are kept as strings so
that unrecognized values can be expressed (the validator checks them). -/
structure GenerationOptions where
  maxCards : Option Nat
  cardTypes : List Str
  customPrompt : Option Str
  tags : Option (List Str)
deriving DecidableEq, Repr

/-- `AnthropicProvider.mergeTags`: strip leading hash signs, drop tags that
become empty, re-prefix with one hash sign, de-duplicate preserving first
insertion order (a JavaScript `Set`). -/
def addTagToSet (acc : List Str) (tag : Str) : List Str :=
  let cleanTag := tag.dropWhile (fun c => c = '#')
  if cleanTag.isEmpty then acc
  else if acc.contains ('#' :: cleanTag) then acc
  else acc ++ ['#' :: cleanTag]

def mergeTags (cardTags optionTags : Option (List Str)) : List Str :=
  (optionTags.getD []).foldl addTagToSet ((cardTags.getD []).foldl addTagToSet [])

/-- The pending card of `AnthropicProvider.parseAsPlainText`; its type and
tags fields are never assigned by that parser. -/
structure PartialCard where
  front : Option Str
  back : Option Str

/-- JavaScript truthiness of an optional string field: defined and
nonempty. -/
def truthy : Option Str → Bool
  | some s => !s.isEmpty
  | none => false

/-- `trimmed.replace(/^(q:|question:)/i, "")`: the alternation tries `q:`
first; matching is anchored and case-insensitive. -/
def stripLeadQ (t : Str) : Str :=
  if startsWith "q:".toList (toLowerStr t) then t.drop 2
  else if startsWith "question:".toList (toLowerStr t) then t.drop 9
  else t

/-- `trimmed.replace(/^(a:|answer:)/i, "")`. -/
def stripLeadA (t : Str) : Str :=
  if startsWith "a:".toList (toLowerStr t) then t.drop 2
  else if startsWith "answer:".toList (toLowerStr t) then t.drop 7
  else t

/-- `partial.type || options.cardTypes[0] || CardType.OneWay` with
`partial.type` never assigned: the first selected card type when truthy,
otherwise `oneway`. -/
def defaultCardType (options : GenerationOptions) : Str :=
  match options.cardTypes.head? with
  | some t => if t.isEmpty then cardTypeStr .oneWay else t
  | none => cardTypeStr .oneWay

/-- `AnthropicProvider.completeCard`: fill missing fields, defaulting the
type to `options.cardTypes[0]` when truthy and to `oneway` otherwise. -/
def completeCard (partialCard : PartialCard) (options : GenerationOptions) :
    RawFlashcard :=
  { front := partialCard.front.getD []
    back := partialCard.back.getD []
    type := defaultCardType options
    tags := some (mergeTags none options.tags) }

/-- One line of the `parseAsPlainText` scan: the state is the emitted cards
plus the pending card. -/
def scanLine (options : GenerationOptions)
    (st : List RawFlashcard × PartialCard) (line : Str) :
    List RawFlashcard × PartialCard :=
  let t := jsTrim line
  let low := toLowerStr t
  if startsWith "q:".toList low || startsWith "question:".toList low then
    let emitted :=
      if truthy st.2.front && truthy st.2.back then
        st.1 ++ [completeCard st.2 options]
      else st.1
    (emitted, { front := some (jsTrim (stripLeadQ t)), back := none })
  else if startsWith "a:".toList low || startsWith "answer:".toList low then
    (st.1, { st.2 with back := some (jsTrim (stripLeadA t)) })
  else if truthy st.2.front && !truthy st.2.back && !t.isEmpty then
    (st.1, { st.2 with back := some t })
  else st

/-- JavaScript `content.split("\n")`. -/
def splitNlAux (acc : Str) : Str → List Str
  | [] => [acc.reverse]
  | c :: rest =>
    if c = '\n' then acc.reverse :: splitNlAux [] rest
    else splitNlAux (c :: acc) rest

def splitNl (s : Str) : List Str :=
  splitNlAux [] s

/-- `AnthropicProvider.parseAsPlainText`: split into lines, keep the
nonblank ones, scan them, and emit the final pending card if complete. -/
def parseAsPlainText (content : Str) (options : GenerationOptions) :
    List RawFlashcard :=
  let lines := (splitNl content).filter (fun l => !(jsTrim l).isEmpty)
  let st := lines.foldl (scanLine options) ([], { front := none, back := none })
  if truthy st.2.front && truthy st.2.back then
    st.1 ++ [completeCard st.2 options]
  else st.1

/-- `content.match(/\{[\s\S]*\})/`-style extraction used by
`parseFlashcardResponse`: greedy match from the first opening brace to the
last closing brace, provided one follows. -/
def jsonShapedSlice (s : Str) : Option Str :=
  let fromBrace := s.dropWhile (fun c => !(c = '\x7b'))
  match fromBrace with
  | [] => none
  | _ :: rest =>
    if rest.contains '\x7d' then
      some ((fromBrace.reverse.dropWhile (fun c => !(c = '\x7d'))).reverse)
    else none

/-- `AnthropicProvider.parseFlashcardResponse`, parameterized by the JSON
branch (parse + shape validation + per-card coercion), which returns `none`
when it would throw.  Absence of a JSON-shaped substring, or any throw from
the JSON branch, falls back to the plain-text parser. -/
def parseFlashcardResponse (jsonBranch : Str → Option (List RawFlashcard))
    (content : Str) (options : GenerationOptions) : List RawFlashcard :=
  match jsonShapedSlice content with
  | none => parseAsPlainText content options
  | some js =>
    match jsonBranch js with
    | some cards => cards
    | none => parseAsPlainText content options

/-- Result record of `FlashcardValidator.validateRawFlashcard`. -/
structure ValidationOutcome where
  isValid : Bool
  errors : List Str
deriving DecidableEq, Repr

/-- The two tag checks of `validateRawFlashcard` (both can fire for the
same tag: the code uses two independent `if`s). -/
def tagErrs (tag : Str) : List Str :=
  (if startsWith ['#'] tag then []
   else ["Tag \"".toList ++ tag ++ "\" must start with #".toList]) ++
  (if tag.contains ' ' then
    ["Tag \"".toList ++ tag ++ "\" cannot contain spaces".toList]
   else [])

/-- `FlashcardValidator.validateRawFlashcard` of `types.ts`. -/
def validateRawFlashcard (card : RawFlashcard) : ValidationOutcome :=
  let e1 :=
    if (jsTrim card.front).isEmpty then
      ["Front content is required and cannot be empty".toList]
    else []
  let e2 :=
    if (jsTrim card.back).isEmpty then
      ["Back content is required and cannot be empty".toList]
    else []
  let e3 :=
    if cardTypeValues.contains card.type then []
    else [("Invalid card type: ".toList ++ card.type)]
  let e4 :=
    if card.type = cardTypeStr .cloze then
      if !hasSub ['=', '='] card.front || !hasClozeSpan card.front then
        ["Cloze cards must contain text wrapped in == markers".toList]
      else []
    else []
  let e5 := (List.map tagErrs (card.tags.getD [])).flatten
  let errors := e1 ++ e2 ++ e3 ++ e4 ++ e5
  { isValid := errors.isEmpty, errors := errors }

/-- Spec-side tag rule of the claim: a single leading hash sign and no
internal whitespace. -/
def specTagRule (tag : Str) : Bool :=
  startsWith ['#'] tag && !startsWith ['#', '#'] tag &&
    tag.all (fun c => !isWs c)

/-- Validity as actually implemented (the amended per-card rule): nonblank
front and back, recognized type string, a proper cloze span for cloze-typed
cards, and every tag starting with a hash sign (one or more) and free of
space characters (other whitespace is not checked). -/
def implValid (card : RawFlashcard) : Bool :=
  !(jsTrim card.front).isEmpty && !(jsTrim card.back).isEmpty &&
  cardTypeValues.contains card.type &&
  (if card.type = cardTypeStr .cloze then
    hasSub ['=', '='] card.front && hasClozeSpan card.front
   else true) &&
  (card.tags.getD []).all (fun tag => startsWith ['#'] tag && !tag.contains ' ')

/-- Usage metadata of a provider response. -/
structure ResponseMeta where
  tokensUsed : Option Nat
  model : Option Str
deriving DecidableEq, Repr

/-- `FlashcardResponse` of `types.ts`. -/
structure FlashcardResponse where
  cards : List RawFlashcard
  metadata : Option ResponseMeta
deriving DecidableEq, Repr

/-- Metadata of a `GenerationResult`. -/
structure GenMetadata where
  tokensUsed : Option Nat
  model : Option Str
  cardsGenerated : Nat
deriving DecidableEq, Repr

/-- `GenerationResult` of `flashcard-generator.ts`. -/
structure GenerationResult where
  success : Bool
  formattedCards : Option Str
  rawCards : Option (List RawFlashcard)
  error : Option Str
  metadata : Option GenMetadata
deriving DecidableEq, Repr

/-- `FlashcardGenerator.convertCardType`: retype freely, except that
conversion into cloze requires an existing cloze span; an undefined target
(empty `cardTypes`) hits the default branch and returns `null`. -/
def convertCardType (card : RawFlashcard) (targetType : Option Str) :
    Option RawFlashcard :=
  match targetType with
  | none => none
  | some t =>
    if t = cardTypeStr .oneWay then some { card with type := t }
    else if t = cardTypeStr .bidirectional then some { card with type := t }
    else if t = cardTypeStr .multiLine then some { card with type := t }
    else if t = cardTypeStr .multiLineBidirectional then
      some { card with type := t }
    else if t = cardTypeStr .cloze then
      if hasSub ['=', '='] card.front && hasClozeSpan card.front then
        some { card with type := t }
      else none
    else none

/-- One iteration of the card loop in
`FlashcardGenerator.processLLMResponse`: a valid card of allowed type is
kept; a valid card of disallowed type is converted to the first allowed
type or silently dropped when conversion fails; an invalid card appends its
indexed error summary. -/
def processCardsStep (options : GenerationOptions)
    (st : List RawFlashcard × List Str) (ic : Nat × RawFlashcard) :
    List RawFlashcard × List Str :=
  let v := validateRawFlashcard ic.2
  if v.isValid then
    if options.cardTypes.contains ic.2.type then (st.1 ++ [ic.2], st.2)
    else
      match convertCardType ic.2 options.cardTypes.head? with
      | some c => (st.1 ++ [c], st.2)
      | none => st
  else
    (st.1, st.2 ++ [("Card ".toList ++ natToStr (ic.1 + 1) ++ ": ".toList ++
      List.intercalate ", ".toList v.errors)])

/-- `FlashcardGenerator.processLLMResponse`. -/
def processLLMResponse (response : FlashcardResponse)
    (options : GenerationOptions) : GenerationResult :=
  if response.cards.isEmpty then
    { success := false, formattedCards := none, rawCards := none,
      error := some ("LLM did not generate any flashcards. " ++
        "Try rephrasing your content or adjusting the prompt.").toList,
      metadata := none }
  else
    let st := response.cards.enum.foldl (processCardsStep options) ([], [])
    if st.1.isEmpty then
      { success := false, formattedCards := none, rawCards := none,
        error := some ("No valid flashcards could be generated. Errors: ".toList
          ++ List.intercalate "; ".toList st.2),
        metadata := none }
    else
      let final :=
        match options.maxCards with
        | some m => if m ≠ 0 ∧ m < st.1.length then st.1.take m else st.1
        | none => st.1
      { success := true, formattedCards := none, rawCards := some final,
        error := none, metadata := none }

/-- Declarative form of the reason a single card contributes to the
aggregate error: a card rejected by per-card validation contributes its
indexed error summary; a card that passes validation contributes
nothing (even when it is later dropped by failed coercion). -/
def cardReason (i : Nat) (c : RawFlashcard) : List Str :=
  if (validateRawFlashcard c).isValid then []
  else
    [("Card ".toList ++ natToStr (i + 1) ++ ": ".toList ++
      List.intercalate ", ".toList (validateRawFlashcard c).errors)]

/-- The reasons that end up aggregated for a batch: exactly the indexed
summaries of the validation-rejected cards, in arrival order. -/
def validationReasons (cards : List RawFlashcard) : List Str :=
  (cards.enum.map (fun p => cardReason p.1 p.2)).flatten

/-- `FlashcardGenerator.validateInput`: empty content, short content, empty
card-type list, or a first unrecognized card type each yield an error. -/
def validateInput (content : Str) (options : GenerationOptions) :
    Option Str :=
  if (jsTrim content).isEmpty then
    some ("Content cannot be empty. " ++
      "Please provide some text to generate flashcards from.").toList
  else if (jsTrim content).length < 10 then
    some ("Content is too short. " ++
      "Please provide more substantial content for flashcard generation.").toList
  else if options.cardTypes.isEmpty then
    some "At least one card type must be specified.".toList
  else
    match options.cardTypes.find? (fun t => !cardTypeValues.contains t) with
    | some t => some ("Invalid card type: ".toList ++ t)
    | none => none

/-- `FlashcardGenerator.generateFlashcards`.  The provider is a parameter
(`provider.generateFlashcards` behind the single suspension point); the
Boolean of the result records whether it was invoked. -/
def generateFlashcards
    (providerGen : Str → GenerationOptions → FlashcardResponse)
    (content : Str) (options : GenerationOptions) :
    GenerationResult × Bool :=
  match validateInput content options with
  | some err =>
    ({ success := false, formattedCards := none, rawCards := none,
       error := some err, metadata := none }, false)
  | none =>
    let resp := providerGen content options
    let processed := processLLMResponse resp options
    if !processed.success then (processed, true)
    else
      let raw := processed.rawCards.getD []
      match formatCards raw with
      | .ok fc =>
        ({ success := true, formattedCards := some fc, rawCards := some raw,
           error := none,
           metadata := some
             { tokensUsed := resp.metadata.bind ResponseMeta.tokensUsed
               model := resp.metadata.bind ResponseMeta.model
               cardsGenerated := raw.length } }, true)
      | .error msg =>
        ({ success := false, formattedCards := none, rawCards := none,
           error := some msg, metadata := none }, true)

/-- JavaScript `content.split(/\s+/)`: maximal whitespace runs separate the
pieces; leading or trailing whitespace contributes an empty piece. -/
def splitWsAux (inWs : Bool) (acc : Str) : Str → List Str
  | [] => [acc.reverse]
  | c :: rest =>
    if isWs c then
      if inWs then splitWsAux true [] rest
      else acc.reverse :: splitWsAux true [] rest
    else splitWsAux false (c :: acc) rest

def splitWsJs (s : Str) : List Str :=
  splitWsAux false [] s

/-- The `while` loop of `ContentProcessor.chunkContent`, with explicit
fuel: `none` means the loop is still running after `fuel` iterations.
Each iteration emits `words.slice(startIndex, endIndex).join(" ")`, then
sets `startIndex = endIndex - overlapSize` and breaks only when that is
past the end of the word list (the same condition as the loop guard). -/
def chunkLoop (words : List Str) (chunkSize overlapSize : Nat) :
    Nat → Nat → List Str → Option (List Str)
  | 0, _, _ => none
  | fuel + 1, startIndex, acc =>
    if startIndex < words.length then
      let endIndex := min (startIndex + chunkSize) words.length
      let chunk :=
        List.intercalate [' ']
          ((words.drop startIndex).take (endIndex - startIndex))
      let acc2 := acc ++ [chunk]
      let start2 := endIndex - overlapSize
      if words.length ≤ start2 then some acc2
      else chunkLoop words chunkSize overlapSize fuel start2 acc2
    else some acc

/-- `ContentProcessor.chunkContent`: short inputs return the whole content
as a single chunk, otherwise the sliding-window loop runs. -/
def chunkContent (fuel : Nat) (content : Str)
    (chunkSize overlapSize : Nat) : Option (List Str) :=
  let words := splitWsJs content
  if words.length ≤ chunkSize then some [content]
  else chunkLoop words chunkSize overlapSize fuel 0 []

/-- `SpacedRepetitionFormatter.getSeparator`. -/
def getSeparator : CardType → Str
  | .oneWay => [':', ':']
  | .bidirectional => [':', ':', ':']
  | .multiLine => ['?']
  | .multiLineBidirectional => ['?', '?', '?']
  | .cloze => ['=', '=']

/-- The delimiter substrings of the card types other than `t`. -/
def otherDelims (t : CardType) : List Str :=
  (([CardType.oneWay, .bidirectional, .multiLine, .multiLineBidirectional,
     .cloze].filter (fun u => u != t)).map getSeparator)

/-- Boundary side conditions (on the cleaned texts) under which encoding
does not manufacture a delimiter of another card type at a junction. -/
def boundaryOk : CardType → Str → Str → Bool
  | .oneWay, cf, cb => !endsWith [':'] cf && !startsWith [':'] cb
  | .multiLine, cf, _ => !endsWith ['?', '?'] cf
  | _, _, _ => true

theorem startsWith_iff (p s : Str) : startsWith p s = true ↔ ∃ t, s = p ++ t := by
  induction p generalizing s with
  | nil => simp [startsWith]
  | cons a ps ih =>
    cases s with
    | nil => simp [startsWith]
    | cons c cs =>
      simp only [startsWith, Bool.and_eq_true, decide_eq_true_eq, ih,
        List.cons_append, List.cons.injEq]
      constructor
      · rintro ⟨rfl, t, rfl⟩; exact ⟨t, rfl, rfl⟩
      · rintro ⟨t, rfl, rfl⟩; exact ⟨rfl, t, rfl⟩

theorem hasSub_iff (p s : Str) : hasSub p s = true ↔ ∃ u v, s = u ++ p ++ v := by
  induction s with
  | nil =>
    simp only [hasSub, List.isEmpty_iff]
    constructor
    · rintro rfl; exact ⟨[], [], rfl⟩
    · rintro ⟨u, v, h⟩
      rcases List.append_eq_nil.mp (List.append_eq_nil.mp h.symm).1 with ⟨-, h2⟩
      exact h2
  | cons c cs ih =>
    simp only [hasSub, Bool.or_eq_true, startsWith_iff, ih]
    constructor
    · rintro (⟨t, h⟩ | ⟨u, v, h⟩)
      · exact ⟨[], t, by simp [h]⟩
      · exact ⟨c :: u, v, by simp [h]⟩
    · rintro ⟨u, v, h⟩
      cases u with
      | nil => exact Or.inl ⟨v, by simpa using h⟩
      | cons x xs =>
        right
        simp only [List.cons_append, List.cons.injEq] at h
        exact ⟨xs, v, h.2⟩

/-- Negative form of `hasSub_iff`, convenient for hypotheses. -/
theorem hasSub_eq_false_iff (p s : Str) :
    hasSub p s = false ↔ ∀ u v, s ≠ u ++ p ++ v := by
  rw [← Bool.not_eq_true, hasSub_iff]
  push_neg
  rfl

theorem endsWith_iff (p s : Str) : endsWith p s = true ↔ ∃ u, s = u ++ p := by
  rw [endsWith, startsWith_iff]
  constructor
  · rintro ⟨t, h⟩
    refine ⟨t.reverse, ?_⟩
    have h2 := congrArg List.reverse h
    simpa using h2
  · rintro ⟨u, rfl⟩
    exact ⟨u.reverse, by simp⟩

/-- No whitespace character survives `collapseWsAux` except the single
spaces it emits; in particular no newline is ever in its output. -/
theorem collapseWsAux_no_newline (s : Str) :
    ∀ flag, '\n' ∉ collapseWsAux flag s := by
  induction s with
  | nil => intro flag; simp [collapseWsAux]
  | cons c rest ih =>
    intro flag
    by_cases hw : isWs c
    · cases flag <;> simp only [collapseWsAux, hw, if_true, reduceIte] <;>
        simp_all [List.mem_cons]
    · have hc : c ≠ '\n' := by
        rintro rfl
        simp [isWs] at hw
      simp only [collapseWsAux, hw, Bool.false_eq_true, if_false,
        List.mem_cons]
      rintro (rfl | h)
      · exact hc rfl
      · exact ih false h

/-- `replace(/\n\s*\n/g, "\n")` is the identity on strings without a
newline: the regex cannot match. -/
theorem remEL_id_of_no_newline (s : Str) (h : '\n' ∉ s) : remEL s = s := by
  induction s with
  | nil => rw [remEL]
  | cons c rest ih =>
    have hc : c ≠ '\n' := fun hcn => h (hcn ▸ List.mem_cons_self c rest)
    rw [remEL]
    simp only [hc, if_false, reduceIte]
    rw [ih (fun hm => h (List.mem_cons_of_mem c hm))]

/-- Since the first replace of `cleanText` already removed every newline,
the second replace (the one meant to collapse blank lines) is dead code. -/
theorem cleanText_eq_collapse (s : Str) :
    cleanText s = collapseWs (jsTrim s) :=
  remEL_id_of_no_newline _ (collapseWsAux_no_newline _ false)

theorem hasSub_intro (p u v : Str) : hasSub p (u ++ p ++ v) = true :=
  (hasSub_iff p _).mpr ⟨u, v, rfl⟩

theorem hasSub_cons (p s : Str) (c : Char) (h : hasSub p s = true) :
    hasSub p (c :: s) = true := by
  simp only [hasSub, Bool.or_eq_true]
  exact Or.inr h

theorem hasSub_mem (p s : Str) (c : Char) (hc : c ∈ p)
    (h : hasSub p s = true) : c ∈ s := by
  obtain ⟨u, v, rfl⟩ := (hasSub_iff p s).mp h
  simp only [List.mem_append]
  exact Or.inl (Or.inr hc)

theorem hasSub_single (c : Char) (s : Str) : hasSub [c] s = true ↔ c ∈ s := by
  constructor
  · exact hasSub_mem [c] s c (List.mem_singleton_self c)
  · intro h
    obtain ⟨u, v, rfl⟩ := List.append_of_mem h
    exact (hasSub_iff _ _).mpr ⟨u, v, by simp⟩

theorem hasSub_false_of_not_mem (p s : Str) (c : Char) (hc : c ∈ p)
    (h : c ∉ s) : hasSub p s = false := by
  cases hps : hasSub p s with
  | false => rfl
  | true => exact absurd (hasSub_mem p s c hc hps) h

/-- Any occurrence of `p` in `a ++ b` lies in `a`, lies in `b`, or
straddles the junction: `p` splits into a nonempty suffix of `a` followed
by a nonempty prefix of `b`. -/
theorem hasSub_append_cases (p a b : Str) (h : hasSub p (a ++ b) = true) :
    hasSub p a = true ∨ hasSub p b = true ∨
    ∃ p₁ p₂, p = p₁ ++ p₂ ∧ p₁ ≠ [] ∧ p₂ ≠ [] ∧
      endsWith p₁ a = true ∧ startsWith p₂ b = true := by
  obtain ⟨u, v, huv⟩ := (hasSub_iff p (a ++ b)).mp h
  rw [List.append_assoc] at huv
  rcases List.append_eq_append_iff.mp huv with ⟨w, hw1, hw2⟩ | ⟨w, hw1, hw2⟩
  · refine Or.inr (Or.inl ?_)
    rw [hw2, ← List.append_assoc]
    exact hasSub_intro p w v
  · rcases List.append_eq_append_iff.mp hw2 with ⟨x, hx1, _⟩ | ⟨x, hx1, hx2⟩
    · refine Or.inl ?_
      rw [hw1, hx1, ← List.append_assoc]
      exact hasSub_intro p u x
    · cases hw0 : w with
      | nil =>
        subst hw0
        simp only [List.nil_append] at hx1
        refine Or.inr (Or.inl ?_)
        rw [hx2, ← hx1]
        exact (hasSub_iff _ _).mpr ⟨[], v, by simp⟩
      | cons wh wt =>
        cases hx0 : x with
        | nil =>
          subst hx0
          simp only [List.append_nil] at hx1
          refine Or.inl ?_
          rw [hw1, ← hx1]
          exact (hasSub_iff _ _).mpr ⟨u, [], by simp⟩
        | cons xh xt =>
          refine Or.inr (Or.inr ⟨w, x, hx1, by simp [hw0], by simp [hx0],
            ?_, ?_⟩)
          · exact (endsWith_iff w a).mpr ⟨u, hw1⟩
          · exact (startsWith_iff x b).mpr ⟨v, hx2⟩

/-- The possible splits of a two-character list. -/
theorem append_eq_pair (p₁ p₂ : Str) (a b : Char) (h : p₁ ++ p₂ = [a, b]) :
    (p₁ = [] ∧ p₂ = [a, b]) ∨ (p₁ = [a] ∧ p₂ = [b]) ∨
    (p₁ = [a, b] ∧ p₂ = []) := by
  rcases p₁ with _ | ⟨x, _ | ⟨y, z⟩⟩ <;> simp_all

/-- The possible splits of a three-character list. -/
theorem append_eq_triple (p₁ p₂ : Str) (a b c : Char)
    (h : p₁ ++ p₂ = [a, b, c]) :
    (p₁ = [] ∧ p₂ = [a, b, c]) ∨ (p₁ = [a] ∧ p₂ = [b, c]) ∨
    (p₁ = [a, b] ∧ p₂ = [c]) ∨ (p₁ = [a, b, c] ∧ p₂ = []) := by
  rcases p₁ with _ | ⟨x, _ | ⟨y, _ | ⟨z, w⟩⟩⟩ <;> simp_all

theorem endsWith_tail2 (a b : Char) (s : Str)
    (h : endsWith [a, b] s = true) : endsWith [b] s = true := by
  obtain ⟨u, rfl⟩ := (endsWith_iff [a, b] s).mp h
  exact (endsWith_iff [b] _).mpr ⟨u ++ [a], by simp⟩

theorem startsWith_head2 (a b : Char) (s : Str)
    (h : startsWith [a, b] s = true) : startsWith [a] s = true := by
  obtain ⟨t, rfl⟩ := (startsWith_iff [a, b] s).mp h
  exact (startsWith_iff [a] _).mpr ⟨b :: t, rfl⟩

/-- A whitespace-free pattern found at the head of a collapsed string is
also at the head of the original. -/
theorem startsWith_collapseWsAux (s : Str) :
    ∀ p : Str, (∀ c ∈ p, isWs c = false) →
      startsWith p (collapseWsAux false s) = true → startsWith p s = true := by
  induction s with
  | nil =>
    intro p hp h
    cases p with
    | nil => simp [startsWith]
    | cons q qs => simp [collapseWsAux, startsWith] at h
  | cons c rest ih =>
    intro p hp h
    by_cases hw : isWs c
    · cases p with
      | nil => simp [startsWith]
      | cons q qs =>
        exfalso
        simp only [collapseWsAux, hw, if_true, reduceIte, startsWith,
          Bool.and_eq_true, decide_eq_true_eq] at h
        have := hp q (List.mem_cons_self q qs)
        rw [h.1] at this
        simp [isWs] at this
    · cases p with
      | nil => simp [startsWith]
      | cons q qs =>
        simp only [collapseWsAux, hw, Bool.false_eq_true, if_false,
          reduceIte, startsWith, Bool.and_eq_true] at h ⊢
        exact ⟨h.1, ih qs (fun d hd => hp d (List.mem_cons_of_mem q hd)) h.2⟩

/-- A whitespace-free pattern occurring in a collapsed string also occurs
in the original. -/
theorem hasSub_collapseWsAux (s : Str) :
    ∀ (flag : Bool) (p : Str), p ≠ [] → (∀ c ∈ p, isWs c = false) →
      hasSub p (collapseWsAux flag s) = true → hasSub p s = true := by
  induction s with
  | nil =>
    intro flag p hne hp h
    simp [collapseWsAux, hasSub, List.isEmpty_iff, hne] at h
  | cons c rest ih =>
    intro flag p hne hp h
    by_cases hw : isWs c
    · have hstep : hasSub p (collapseWsAux true rest) = true := by
        cases flag with
        | true => simpa [collapseWsAux, hw] using h
        | false =>
          simp only [collapseWsAux, hw, if_true, reduceIte] at h
          simp only [hasSub, Bool.or_eq_true] at h
          rcases h with h | h
          · exfalso
            cases p with
            | nil => exact hne rfl
            | cons q qs =>
              simp only [startsWith, Bool.and_eq_true, decide_eq_true_eq] at h
              have := hp q (List.mem_cons_self q qs)
              rw [h.1] at this
              simp [isWs] at this
          · exact h
      exact hasSub_cons p rest c (ih true p hne hp hstep)
    · simp only [collapseWsAux, hw, Bool.false_eq_true, if_false,
        reduceIte] at h
      simp only [hasSub, Bool.or_eq_true] at h ⊢
      rcases h with h | h
      · cases p with
        | nil => exact absurd rfl hne
        | cons q qs =>
          simp only [startsWith, Bool.and_eq_true] at h ⊢
          exact Or.inl ⟨h.1, startsWith_collapseWsAux rest qs
            (fun d hd => hp d (List.mem_cons_of_mem q hd)) h.2⟩
      · exact Or.inr (ih false p hne hp h)

/-- The trimmed string is a contiguous slice of the original. -/
theorem jsTrim_decomp (s : Str) : ∃ u v, s = u ++ jsTrim s ++ v := by
  refine ⟨s.takeWhile isWs,
    ((s.dropWhile isWs).reverse.takeWhile isWs).reverse, ?_⟩
  conv_lhs => rw [← s.takeWhile_append_dropWhile isWs]
  rw [List.append_assoc]
  congr 1
  conv_lhs => rw [← (s.dropWhile isWs).reverse_reverse,
    ← (s.dropWhile isWs).reverse.takeWhile_append_dropWhile isWs]
  rw [List.reverse_append]
  rfl

theorem hasSub_jsTrim (p s : Str) (h : hasSub p (jsTrim s) = true) :
    hasSub p s = true := by
  obtain ⟨u, v, huv⟩ := jsTrim_decomp s
  obtain ⟨x, y, hxy⟩ := (hasSub_iff p (jsTrim s)).mp h
  refine (hasSub_iff p s).mpr ⟨u ++ x, y ++ v, ?_⟩
  rw [huv, hxy]
  simp [List.append_assoc]

/-- A nonempty whitespace-free pattern absent from a string is also absent
from its cleaned form. -/
theorem cleanText_hasSub_false (p s : Str) (hne : p ≠ [])
    (hp : ∀ c ∈ p, isWs c = false) (h : hasSub p s = false) :
    hasSub p (cleanText s) = false := by
  cases hcs : hasSub p (cleanText s) with
  | false => rfl
  | true =>
    rw [cleanText_eq_collapse] at hcs
    have := hasSub_jsTrim p s (hasSub_collapseWsAux _ false p hne hp hcs)
    rw [h] at this
    exact absurd this (by simp)

/-- Detection of an encoded one-way card, given that the two cleaned parts
contain no triple colon and no question mark, the front does not end in a
colon and the back does not start with one. -/
theorem detect_oneWay (cf cb : Str)
    (h3f : hasSub [':', ':', ':'] cf = false)
    (h3b : hasSub [':', ':', ':'] cb = false)
    (hqf : hasSub ['?'] cf = false) (hqb : hasSub ['?'] cb = false)
    (hend : endsWith [':'] cf = false)
    (hstart : startsWith [':'] cb = false) :
    detectCardType (cf ++ [':', ':'] ++ cb) = some .oneWay := by
  have hqmem : '?' ∉ cf ++ [':', ':'] ++ cb := by
    simp only [List.mem_append]
    rintro ((h | h) | h)
    · exact absurd ((hasSub_single '?' cf).mpr h) (by simp [hqf])
    · simp at h
    · exact absurd ((hasSub_single '?' cb).mpr h) (by simp [hqb])
  have hq3 : hasSub ['?', '?', '?'] (cf ++ [':', ':'] ++ cb) = false :=
    hasSub_false_of_not_mem _ _ '?' (by simp) hqmem
  have h3 : hasSub [':', ':', ':'] (cf ++ [':', ':'] ++ cb) = false := by
    cases hx : hasSub [':', ':', ':'] (cf ++ [':', ':'] ++ cb) with
    | false => rfl
    | true =>
      exfalso
      rw [List.append_assoc] at hx
      rcases hasSub_append_cases _ _ _ hx with
        h | h | ⟨p₁, p₂, hsplit, hp1, hp2, hsuf, _⟩
      · simp [h3f] at h
      · rcases hasSub_append_cases _ _ _ h with
          h2 | h2 | ⟨q₁, q₂, hq, hq1, hq2, hqsuf, hqpre⟩
        · exact absurd h2 (by decide)
        · simp [h3b] at h2
        · rcases append_eq_triple _ _ _ _ _ hq.symm with
            ⟨h1, _⟩ | ⟨h1, h2⟩ | ⟨h1, h2⟩ | ⟨_, h2⟩
          · exact hq1 h1
          · subst h2
            exact absurd (startsWith_head2 _ _ _ hqpre) (by simp [hstart])
          · subst h2
            exact absurd hqpre (by simp [hstart])
          · exact hq2 h2
      · rcases append_eq_triple _ _ _ _ _ hsplit.symm with
          ⟨h1, _⟩ | ⟨h1, _⟩ | ⟨h1, _⟩ | ⟨_, h2⟩
        · exact hp1 h1
        · subst h1
          exact absurd hsuf (by simp [hend])
        · subst h1
          exact absurd (endsWith_tail2 _ _ _ hsuf) (by simp [hend])
        · exact hp2 h2
  have h2pos : hasSub [':', ':'] (cf ++ [':', ':'] ++ cb) = true :=
    hasSub_intro _ cf cb
  unfold detectCardType
  rw [hq3, h3, h2pos]
  simp

/-- Detection of an encoded bidirectional card: no question mark anywhere
suffices, since the triple colon of the junction is found first. -/
theorem detect_bidirectional (cf cb : Str)
    (hqf : hasSub ['?'] cf = false) (hqb : hasSub ['?'] cb = false) :
    detectCardType (cf ++ [':', ':', ':'] ++ cb) = some .bidirectional := by
  have hqmem : '?' ∉ cf ++ [':', ':', ':'] ++ cb := by
    simp only [List.mem_append]
    rintro ((h | h) | h)
    · exact absurd ((hasSub_single '?' cf).mpr h) (by simp [hqf])
    · simp at h
    · exact absurd ((hasSub_single '?' cb).mpr h) (by simp [hqb])
  have hq3 : hasSub ['?', '?', '?'] (cf ++ [':', ':', ':'] ++ cb) = false :=
    hasSub_false_of_not_mem _ _ '?' (by simp) hqmem
  have h3pos : hasSub [':', ':', ':'] (cf ++ [':', ':', ':'] ++ cb) = true :=
    hasSub_intro _ cf cb
  unfold detectCardType
  rw [hq3, h3pos]
  simp

/-- Detection of an encoded multi-line card, given that the cleaned parts
contain no double or triple colon and no triple question mark, and the
front does not end in two question marks. -/
theorem detect_multiLine (cf cb : Str)
    (h2f : hasSub [':', ':'] cf = false) (h2b : hasSub [':', ':'] cb = false)
    (h3f : hasSub [':', ':', ':'] cf = false)
    (h3b : hasSub [':', ':', ':'] cb = false)
    (hqqf : hasSub ['?', '?', '?'] cf = false)
    (hqqb : hasSub ['?', '?', '?'] cb = false)
    (hend : endsWith ['?', '?'] cf = false) :
    detectCardType (cf ++ ['?', '\n'] ++ cb) = some .multiLine := by
  have hq3 : hasSub ['?', '?', '?'] (cf ++ ['?', '\n'] ++ cb) = false := by
    cases hx : hasSub ['?', '?', '?'] (cf ++ ['?', '\n'] ++ cb) with
    | false => rfl
    | true =>
      exfalso
      rw [List.append_assoc] at hx
      rcases hasSub_append_cases _ _ _ hx with
        h | h | ⟨p₁, p₂, hsplit, hp1, hp2, hsuf, hpre⟩
      · simp [hqqf] at h
      · rcases hasSub_append_cases _ _ _ h with
          h2 | h2 | ⟨q₁, q₂, hq, hq1, hq2, hqsuf, _⟩
        · exact absurd h2 (by decide)
        · simp [hqqb] at h2
        · rcases append_eq_triple _ _ _ _ _ hq.symm with
            ⟨h1, _⟩ | ⟨h1, _⟩ | ⟨h1, _⟩ | ⟨_, h2⟩
          · exact hq1 h1
          · subst h1
            exact absurd hqsuf (by decide)
          · subst h1
            exact absurd hqsuf (by decide)
          · exact hq2 h2
      · rcases append_eq_triple _ _ _ _ _ hsplit.symm with
          ⟨h1, _⟩ | ⟨h1, h2⟩ | ⟨h1, _⟩ | ⟨_, h2⟩
        · exact hp1 h1
        · subst h2
          simp [startsWith] at hpre
        · subst h1
          exact absurd hsuf (by simp [hend])
        · exact hp2 h2
  have h3 : hasSub [':', ':', ':'] (cf ++ ['?', '\n'] ++ cb) = false := by
    cases hx : hasSub [':', ':', ':'] (cf ++ ['?', '\n'] ++ cb) with
    | false => rfl
    | true =>
      exfalso
      rw [List.append_assoc] at hx
      rcases hasSub_append_cases _ _ _ hx with
        h | h | ⟨p₁, p₂, hsplit, hp1, hp2, _, hpre⟩
      · simp [h3f] at h
      · rcases hasSub_append_cases _ _ _ h with
          h2 | h2 | ⟨q₁, q₂, hq, hq1, hq2, hqsuf, _⟩
        · exact absurd h2 (by decide)
        · simp [h3b] at h2
        · rcases append_eq_triple _ _ _ _ _ hq.symm with
            ⟨h1, _⟩ | ⟨h1, _⟩ | ⟨h1, _⟩ | ⟨_, h2⟩
          · exact hq1 h1
          · subst h1
            exact absurd hqsuf (by decide)
          · subst h1
            exact absurd hqsuf (by decide)
          · exact hq2 h2
      · rcases append_eq_triple _ _ _ _ _ hsplit.symm with
          ⟨h1, _⟩ | ⟨_, h2⟩ | ⟨_, h2⟩ | ⟨_, h2⟩
        · exact hp1 h1
        · subst h2
          simp [startsWith] at hpre
        · subst h2
          simp [startsWith] at hpre
        · exact hp2 h2
  have h2 : hasSub [':', ':'] (cf ++ ['?', '\n'] ++ cb) = false := by
    cases hx : hasSub [':', ':'] (cf ++ ['?', '\n'] ++ cb) with
    | false => rfl
    | true =>
      exfalso
      rw [List.append_assoc] at hx
      rcases hasSub_append_cases _ _ _ hx with
        h | h | ⟨p₁, p₂, hsplit, hp1, hp2, _, hpre⟩
      · simp [h2f] at h
      · rcases hasSub_append_cases _ _ _ h with
          h2x | h2x | ⟨q₁, q₂, hq, hq1, hq2, hqsuf, _⟩
        · exact absurd h2x (by decide)
        · simp [h2b] at h2x
        · rcases append_eq_pair _ _ _ _ hq.symm with
            ⟨h1, _⟩ | ⟨h1, _⟩ | ⟨_, h2y⟩
          · exact hq1 h1
          · subst h1
            exact absurd hqsuf (by decide)
          · exact hq2 h2y
      · rcases append_eq_pair _ _ _ _ hsplit.symm with
          ⟨h1, _⟩ | ⟨_, h2y⟩ | ⟨_, h2y⟩
        · exact hp1 h1
        · subst h2y
          simp [startsWith] at hpre
        · exact hp2 h2y
  have hqpos : hasSub ['?'] (cf ++ ['?', '\n'] ++ cb) = true := by
    rw [hasSub_single]
    simp
  unfold detectCardType
  rw [hq3, h3, h2, hqpos]
  simp

/-- Detection of an encoded multi-line bidirectional card: the junction
itself carries the triple question mark, which has top priority. -/
theorem detect_multiLineBidirectional (cf cb : Str) :
    detectCardType (cf ++ ['?', '?', '?', '\n'] ++ cb) =
      some .multiLineBidirectional := by
  have hqpos : hasSub ['?', '?', '?'] (cf ++ ['?', '?', '?', '\n'] ++ cb)
      = true := by
    have he : cf ++ ['?', '?', '?', '\n'] ++ cb
        = cf ++ ['?', '?', '?'] ++ ('\n' :: cb) := by simp
    rw [he]
    exact hasSub_intro _ cf ('\n' :: cb)
  unfold detectCardType
  rw [hqpos]
  simp

/-- C5: type detection applies exactly the priority order
MultiLineBidirectional (contains three question marks) > Bidirectional
(triple colon) > OneWay (double colon) > MultiLine (question mark) > Cloze
(double equals plus a nonempty span match), first match wins, and with no
match the result is null: `detectCardType` agrees with the spec-side
first-match rule list on every input. -/
theorem c5_detect_priority (s : Str) : detectCardType s = specDetect s := by
  unfold detectCardType specDetect specDetectRules
  cases h1 : hasSub ['?', '?', '?'] s <;>
    cases h2 : hasSub [':', ':', ':'] s <;>
      cases h3 : hasSub [':', ':'] s <;>
        cases h4 : hasSub ['?'] s <;>
          cases h5 : hasSub ['=', '='] s <;>
            cases h6 : hasClozeSpan s <;>
              simp [List.find?, h1, h2, h3, h4, h5, h6]

/-- C2 (code bug): `cleanText` is meant to preserve single intentional
line breaks, but its first replace collapses every whitespace run —
newlines included — to a single space, so the blank-line rule never sees a
newline: on the failing input the single line break becomes a space, and in
general no output of `cleanText` contains a newline at all. -/
theorem c2_clean_text_newline_bug :
    cleanText "line1\nline2".toList = "line1 line2".toList ∧
    ∀ s : Str, '\n' ∉ cleanText s := by
  constructor
  · rw [cleanText_eq_collapse]
    decide
  · intro s
    rw [cleanText_eq_collapse]
    exact collapseWsAux_no_newline _ false

/-- C9: `getConfig` never exposes the API key: two stored configurations
that differ only in `apiKey` yield the same result, and the result carries
exactly the endpoint, model and custom headers. -/
theorem c9_getConfig_hides_apiKey (c : ProviderConfig) (k : Option Str) :
    getConfig { c with apiKey := k } = getConfig c ∧
    getConfig c = ⟨c.endpoint, c.model, c.customHeaders⟩ :=
  ⟨rfl, rfl⟩

/-- C4 counterexample: the claim fails as stated.  With front `"a:"` and
back `"b"` — both nonempty and free of every delimiter substring of the
other card types — encoding a OneWay card yields `"a:::b"`, in which
detection finds the higher-priority triple colon and returns Bidirectional
instead of OneWay. -/
theorem c4_counterexample :
    ("a:".toList ≠ ([] : Str)) ∧ ("b".toList ≠ ([] : Str)) ∧
    (∀ p ∈ otherDelims CardType.oneWay,
      hasSub p "a:".toList = false ∧ hasSub p "b".toList = false) ∧
    roundTrip ⟨"a:".toList, "b".toList, cardTypeStr CardType.oneWay, none⟩
      = some CardType.bidirectional := by
  refine ⟨by decide, by decide, by decide, ?_⟩
  rw [show roundTrip
        ⟨"a:".toList, "b".toList, cardTypeStr CardType.oneWay, none⟩
      = detectCardType
          (cleanText "a:".toList ++ [':', ':'] ++ cleanText "b".toList)
    from rfl]
  rw [cleanText_eq_collapse, cleanText_eq_collapse]
  decide

/-- C4 (amended): for each CardType except Cloze and every nonempty front
and back free of the other types' delimiter substrings, the round trip
returns the original type, provided the junctions create no delimiter of
another type: for OneWay the cleaned front must not end in a colon and the
cleaned back must not start with one, and for MultiLine the cleaned front
must not end in two question marks. -/
theorem c4_round_trip_amended (t : CardType) (f b : Str)
    (ht : t ≠ CardType.cloze) (hf : f ≠ []) (hb : b ≠ [])
    (hfd : ∀ p ∈ otherDelims t, hasSub p f = false)
    (hbd : ∀ p ∈ otherDelims t, hasSub p b = false)
    (hbound : boundaryOk t (cleanText f) (cleanText b) = true) :
    roundTrip ⟨f, b, cardTypeStr t, none⟩ = some t := by
  cases t with
  | cloze => exact absurd rfl ht
  | oneWay =>
    have h3f := cleanText_hasSub_false [':', ':', ':'] f (by decide)
      (by decide) (hfd _ (by decide))
    have h3b := cleanText_hasSub_false [':', ':', ':'] b (by decide)
      (by decide) (hbd _ (by decide))
    have hqf := cleanText_hasSub_false ['?'] f (by decide) (by decide)
      (hfd _ (by decide))
    have hqb := cleanText_hasSub_false ['?'] b (by decide) (by decide)
      (hbd _ (by decide))
    simp only [boundaryOk, Bool.and_eq_true, Bool.not_eq_true'] at hbound
    rw [show roundTrip ⟨f, b, cardTypeStr CardType.oneWay, none⟩
        = detectCardType (cleanText f ++ [':', ':'] ++ cleanText b)
      from rfl]
    exact detect_oneWay _ _ h3f h3b hqf hqb hbound.1 hbound.2
  | bidirectional =>
    have hqf := cleanText_hasSub_false ['?'] f (by decide) (by decide)
      (hfd _ (by decide))
    have hqb := cleanText_hasSub_false ['?'] b (by decide) (by decide)
      (hbd _ (by decide))
    rw [show roundTrip ⟨f, b, cardTypeStr CardType.bidirectional, none⟩
        = detectCardType (cleanText f ++ [':', ':', ':'] ++ cleanText b)
      from rfl]
    exact detect_bidirectional _ _ hqf hqb
  | multiLine =>
    have h2f := cleanText_hasSub_false [':', ':'] f (by decide) (by decide)
      (hfd _ (by decide))
    have h2b := cleanText_hasSub_false [':', ':'] b (by decide) (by decide)
      (hbd _ (by decide))
    have h3f := cleanText_hasSub_false [':', ':', ':'] f (by decide)
      (by decide) (hfd _ (by decide))
    have h3b := cleanText_hasSub_false [':', ':', ':'] b (by decide)
      (by decide) (hbd _ (by decide))
    have hqqf := cleanText_hasSub_false ['?', '?', '?'] f (by decide)
      (by decide) (hfd _ (by decide))
    have hqqb := cleanText_hasSub_false ['?', '?', '?'] b (by decide)
      (by decide) (hbd _ (by decide))
    simp only [boundaryOk, Bool.not_eq_true'] at hbound
    rw [show roundTrip ⟨f, b, cardTypeStr CardType.multiLine, none⟩
        = detectCardType (cleanText f ++ ['?', '\n'] ++ cleanText b)
      from rfl]
    exact detect_multiLine _ _ h2f h2b h3f h3b hqqf hqqb hbound
  | multiLineBidirectional =>
    rw [show roundTrip ⟨f, b, cardTypeStr CardType.multiLineBidirectional,
          none⟩
        = detectCardType (cleanText f ++ ['?', '?', '?', '\n'] ++ cleanText b)
      from rfl]
    exact detect_multiLineBidirectional _ _

/-- C4 witness: the amended round trip at a concrete OneWay card. -/
theorem c4_round_trip_amended_witness :
    roundTrip
      ⟨"front".toList, "back".toList, cardTypeStr CardType.oneWay, none⟩
      = some CardType.oneWay :=
  c4_round_trip_amended CardType.oneWay "front".toList "back".toList
    (by decide) (by decide) (by decide) (by decide) (by decide)
    (by rw [cleanText_eq_collapse, cleanText_eq_collapse]; decide)

/-- Once the sliding-window loop of `chunkContent` has started and
`overlapSize` is positive, the start index always stays strictly below the
word count (the next start index is `min (start + chunkSize) length -
overlapSize`), so neither the loop guard nor the break condition can ever
fire: the loop runs out of any amount of fuel. -/
theorem chunkLoop_runs_forever (words : List Str) (W O : Nat) (hO : 0 < O) :
    ∀ (fuel start : Nat) (acc : List Str), start < words.length →
      chunkLoop words W O fuel start acc = none := by
  intro fuel
  induction fuel with
  | zero => intro start acc _; rfl
  | succ n ih =>
    intro start acc h
    have hmin : min (start + W) words.length ≤ words.length :=
      Nat.min_le_right _ _
    simp only [chunkLoop]
    rw [if_pos h, if_neg (by omega)]
    exact ih _ _ (by omega)

/-- C1 (code bug): whenever the cleaned text has more words than the
window size and the overlap is positive, the chunking loop never
terminates — the break tests `startIndex >= words.length`, but the start
index is always at most `words.length - overlapSize`.  The spec's claims
of termination and coverage therefore fail on every such input. -/
theorem c1_chunking_never_terminates (content : Str)
    (chunkSize overlapSize : Nat)
    (hW : chunkSize < (splitWsJs content).length) (hO : 0 < overlapSize) :
    ∀ fuel, chunkContent fuel content chunkSize overlapSize = none := by
  intro fuel
  simp only [chunkContent]
  rw [if_neg (by omega)]
  exact chunkLoop_runs_forever _ _ _ hO fuel 0 [] (by omega)

/-- C1 witness: a five-word text with window 4 and overlap 1 never
finishes chunking. -/
theorem c1_chunking_never_terminates_witness :
    chunkContent 100 "alpha beta gamma delta epsilon".toList 4 1 = none :=
  c1_chunking_never_terminates "alpha beta gamma delta epsilon".toList 4 1
    (by decide) (by decide) 100

/-- C10: because the content placeholder is substituted before the other
variables, placeholder tokens arriving inside the substituted content are
themselves substituted: a context whose content field is the literal text
of the title placeholder renders to the title value, and the rendered
prompt no longer contains the placeholder text. -/
theorem c10_render_substitutes_injected_placeholders :
    renderTemplate [("t1".toList, "Prompt: {content} End".toList)]
        "t1".toList
        ⟨"MyTitle".toList, "{title}".toList, 7, none, [], none, none⟩
      = some "Prompt: MyTitle End".toList ∧
    hasSub "{title}".toList "Prompt: MyTitle End".toList = false := by
  constructor
  · decide
  · decide

/-- C7 counterexample: the claim's tag rule demands a single leading hash
sign, but the validator only checks `startsWith("#")`, so a tag with two
leading hash signs is accepted even though the claimed rule rejects it. -/
theorem c7_counterexample_double_hash_tag :
    (validateRawFlashcard
      ⟨"F".toList, "B".toList, "oneway".toList,
        some ["##x".toList]⟩).isValid = true ∧
    specTagRule "##x".toList = false := by
  decide

theorem isEmptyAppend (l₁ l₂ : List Char) :
    (l₁ ++ l₂).isEmpty = (l₁.isEmpty && l₂.isEmpty) := by
  cases l₁ <;> simp

theorem clozeStrMem : cardTypeStr CardType.cloze ∈ cardTypeValues := by
  decide

theorem tagErrs_flatten_isEmpty (tags : List Str) :
    (List.map tagErrs tags).flatten.isEmpty =
      tags.all (fun tag => startsWith ['#'] tag && !tag.contains ' ') := by
  induction tags with
  | nil => rfl
  | cons t ts ih =>
    by_cases h1 : startsWith ['#'] t <;> by_cases h2 : ' ' ∈ t <;>
      simp [tagErrs, isEmptyAppend, h1, h2, ih]

/-- C7 (amended): a card is accepted exactly when front and back are
nonblank, its type string is recognized, a cloze-typed front has a proper
double-equals span, and every tag starts with a hash sign (one or more)
and contains no space character; in particular `biology` is rejected with
a "must start with #" error, `#flash cards` with a "cannot contain spaces"
error, and `#biology` is accepted. -/
theorem c7_validator_characterization (card : RawFlashcard) :
    (validateRawFlashcard card).isValid = implValid card ∧
    (validateRawFlashcard ⟨"F".toList, "B".toList, "oneway".toList,
      some ["biology".toList]⟩).isValid = false ∧
    (validateRawFlashcard ⟨"F".toList, "B".toList, "oneway".toList,
      some ["biology".toList]⟩).errors
        = ["Tag \"biology\" must start with #".toList] ∧
    (validateRawFlashcard ⟨"F".toList, "B".toList, "oneway".toList,
      some ["#flash cards".toList]⟩).isValid = false ∧
    (validateRawFlashcard ⟨"F".toList, "B".toList, "oneway".toList,
      some ["#flash cards".toList]⟩).errors
        = ["Tag \"#flash cards\" cannot contain spaces".toList] ∧
    (validateRawFlashcard ⟨"F".toList, "B".toList, "oneway".toList,
      some ["#biology".toList]⟩).isValid = true := by
  refine ⟨?_, by decide, by decide, by decide, by decide, by decide⟩
  unfold validateRawFlashcard implValid
  by_cases h1 : (jsTrim card.front).isEmpty <;>
    by_cases h2 : (jsTrim card.back).isEmpty <;>
      by_cases h3 : card.type ∈ cardTypeValues <;>
        by_cases h4 : card.type = cardTypeStr .cloze <;>
          by_cases h5 : hasSub ['=', '='] card.front <;>
            by_cases h6 : hasClozeSpan card.front <;>
              simp [h1, h2, h3, h4, h5, h6, isEmptyAppend, clozeStrMem,
                tagErrs_flatten_isEmpty]

/-- C3 counterexample: with only Cloze allowed and a single valid
non-cloze card, the card is dropped because it cannot be coerced into
Cloze, yet the aggregate error message carries no per-card reason at all —
it is the bare prefix with an empty reason list, contradicting the claim
that every rejected card's reason is aggregated. -/
theorem c3_counterexample_silent_drop :
    (processLLMResponse
      ⟨[⟨"What is X".toList, "It is Y".toList, "oneway".toList, none⟩],
        none⟩
      ⟨none, ["cloze".toList], none, none⟩).success = false ∧
    (processLLMResponse
      ⟨[⟨"What is X".toList, "It is Y".toList, "oneway".toList, none⟩],
        none⟩
      ⟨none, ["cloze".toList], none, none⟩).error
        = some "No valid flashcards could be generated. Errors: ".toList ∧
    hasSub "Card 1".toList
      "No valid flashcards could be generated. Errors: ".toList = false := by
  decide

/-- C3 (amended): whenever no card of a nonempty batch survives — each
card either fails per-card validation, or is valid but of a disallowed
type and cannot be coerced (in particular into Cloze without a cloze
span) — the batch fails with the "No valid flashcards" error whose
aggregated reason list is exactly the indexed reasons of the
validation-rejected cards, in order: coercion-dropped cards contribute no
reason. -/
theorem c3_zero_survivors_aggregate_error (cards : List RawFlashcard)
    (options : GenerationOptions) (meta : Option ResponseMeta)
    (hne : cards ≠ [])
    (hall : ∀ c ∈ cards, (validateRawFlashcard c).isValid = false ∨
      (options.cardTypes.contains c.type = false ∧
       convertCardType c options.cardTypes.head? = none)) :
    processLLMResponse ⟨cards, meta⟩ options =
      ⟨false, none, none,
        some ("No valid flashcards could be generated. Errors: ".toList
          ++ List.intercalate "; ".toList (validationReasons cards)),
        none⟩ := by
  have key : ∀ (l : List (Nat × RawFlashcard)),
      (∀ p ∈ l, (validateRawFlashcard p.2).isValid = false ∨
        (options.cardTypes.contains p.2.type = false ∧
         convertCardType p.2 options.cardTypes.head? = none)) →
      ∀ st : List RawFlashcard × List Str,
        l.foldl (processCardsStep options) st =
          (st.1, st.2 ++ (l.map (fun p => cardReason p.1 p.2)).flatten) := by
    intro l
    induction l with
    | nil => intro _ st; simp
    | cons p ps ih =>
      intro hl st
      have hp := hl p (List.mem_cons_self p ps)
      have hstep : processCardsStep options st p
          = (st.1, st.2 ++ cardReason p.1 p.2) := by
        by_cases hv : (validateRawFlashcard p.2).isValid = true
        · rcases hp with hinv | ⟨hmemF, hconv⟩
          · rw [hv] at hinv
            exact absurd hinv (by simp)
          · have hmem : p.2.type ∉ options.cardTypes := by simpa using hmemF
            simp [processCardsStep, cardReason, hv, hmem, hconv]
        · have hv' : (validateRawFlashcard p.2).isValid = false := by
            simpa using hv
          simp [processCardsStep, cardReason, hv']
      simp only [List.foldl_cons, hstep]
      rw [ih (fun q hq => hl q (List.mem_cons_of_mem p hq))]
      simp [List.append_assoc]
  have hcards : ∀ p ∈ cards.enum,
      (validateRawFlashcard p.2).isValid = false ∨
      (options.cardTypes.contains p.2.type = false ∧
       convertCardType p.2 options.cardTypes.head? = none) := by
    intro p hp
    have hget := List.mem_enum_iff_getElem?.mp hp
    exact hall p.2 (List.getElem?_mem hget)
  unfold processLLMResponse
  rw [if_neg (fun h => hne (List.isEmpty_iff.mp h))]
  rw [key cards.enum hcards ([], [])]
  simp [validationReasons]

/-- C3 witness: a batch with one validation-rejected card (empty front)
and one valid card dropped by failed Cloze coercion fails with an error
aggregating exactly the first card's reason. -/
theorem c3_zero_survivors_aggregate_error_witness :
    processLLMResponse
      ⟨[⟨[], "B".toList, "oneway".toList, none⟩,
        ⟨"What is X".toList, "It is Y".toList, "oneway".toList, none⟩],
        none⟩
      ⟨none, ["cloze".toList], none, none⟩ =
      ⟨false, none, none,
        some ("No valid flashcards could be generated. Errors: " ++
          "Card 1: Front content is required and cannot be empty").toList,
        none⟩ :=
  (c3_zero_survivors_aggregate_error
    [⟨[], "B".toList, "oneway".toList, none⟩,
     ⟨"What is X".toList, "It is Y".toList, "oneway".toList, none⟩]
    ⟨none, ["cloze".toList], none, none⟩ none (by decide)
    (by decide)).trans (by decide)

/-- C6: empty content, too-short content, an empty card-type set, or a
card-type set containing an unrecognized type each make `generate` return
a failed result with an error message, and the provider's
`generateFlashcards` is never invoked (second component false). -/
theorem c6_invalid_input_no_provider_call
    (providerGen : Str → GenerationOptions → FlashcardResponse)
    (content : Str) (options : GenerationOptions)
    (h : (jsTrim content).isEmpty = true ∨ (jsTrim content).length < 10 ∨
      options.cardTypes = [] ∨ ∃ t ∈ options.cardTypes, t ∉ cardTypeValues) :
    (generateFlashcards providerGen content options).1.success = false ∧
    (generateFlashcards providerGen content options).1.error.isSome = true ∧
    (generateFlashcards providerGen content options).2 = false := by
  have hv : ∃ e, validateInput content options = some e := by
    unfold validateInput
    by_cases h1 : (jsTrim content).isEmpty
    · rw [if_pos h1]; exact ⟨_, rfl⟩
    · rw [if_neg h1]
      by_cases h2 : (jsTrim content).length < 10
      · rw [if_pos h2]; exact ⟨_, rfl⟩
      · rw [if_neg h2]
        by_cases h3 : options.cardTypes.isEmpty
        · rw [if_pos h3]; exact ⟨_, rfl⟩
        · rw [if_neg h3]
          rcases h with h | h | h | ⟨t, ht, hc⟩
          · exact absurd h h1
          · exact absurd h h2
          · exact absurd (by simp [h]) h3
          · have hsome : (options.cardTypes.find?
                (fun u => !cardTypeValues.contains u)).isSome := by
              rw [List.find?_isSome]
              exact ⟨t, ht, by simpa using hc⟩
            cases hfind : options.cardTypes.find?
                (fun u => !cardTypeValues.contains u) with
            | none =>
              have hmem := List.find?_eq_none.mp hfind t ht
              simp at hmem
              exact absurd hmem hc
            | some u => exact ⟨_, rfl⟩
  obtain ⟨e, he⟩ := hv
  unfold generateFlashcards
  rw [he]
  simp

/-- C6 witness: empty content with an empty card-type set. -/
theorem c6_invalid_input_no_provider_call_witness :
    (generateFlashcards (fun _ _ => ⟨[], none⟩) []
      ⟨none, [], none, none⟩).1.success = false ∧
    (generateFlashcards (fun _ _ => ⟨[], none⟩) []
      ⟨none, [], none, none⟩).1.error.isSome = true ∧
    (generateFlashcards (fun _ _ => ⟨[], none⟩) []
      ⟨none, [], none, none⟩).2 = false :=
  c6_invalid_input_no_provider_call (fun _ _ => ⟨[], none⟩) []
    ⟨none, [], none, none⟩ (Or.inl (by decide))

/-- Every card emitted by one scan step has the default type (cards are
only ever emitted through `completeCard`). -/
theorem scanLine_type (options : GenerationOptions)
    (st : List RawFlashcard × PartialCard) (line : Str)
    (hst : ∀ c ∈ st.1, c.type = defaultCardType options) :
    ∀ c ∈ (scanLine options st line).1, c.type = defaultCardType options := by
  intro c hc
  simp only [scanLine] at hc
  split at hc
  · split at hc
    · rcases List.mem_append.mp hc with h | h
      · exact hst c h
      · rw [List.mem_singleton.mp h]
        rfl
    · exact hst c hc
  · split at hc
    · exact hst c hc
    · split at hc
      · exact hst c hc
      · exact hst c hc

/-- Every card produced by the plain-text parser carries the default
type. -/
theorem parseAsPlainText_type (content : Str) (options : GenerationOptions) :
    ∀ card ∈ parseAsPlainText content options,
      card.type = defaultCardType options := by
  have fold : ∀ (lines : List Str) (st : List RawFlashcard × PartialCard),
      (∀ c ∈ st.1, c.type = defaultCardType options) →
      ∀ c ∈ (lines.foldl (scanLine options) st).1,
        c.type = defaultCardType options := by
    intro lines
    induction lines with
    | nil => intro st hst; exact hst
    | cons l ls ih =>
      intro st hst
      exact ih _ (scanLine_type options st l hst)
  intro card hcard
  simp only [parseAsPlainText] at hcard
  split at hcard
  · rcases List.mem_append.mp hcard with h | h
    · exact fold _ _ (by simp) card h
    · rw [List.mem_singleton.mp h]
      rfl
  · exact fold _ _ (by simp) card hcard

/-- C8: the scenario input has no JSON-shaped substring, so interpretation
falls back to the line scanner for any behavior of the JSON branch; the
scan of `"Q: What is X?\nA: It is Y."` yields exactly one raw card
whose front is `"What is X?"`, whose back is `"It is Y."`, whose type is
the first option-selected card type, and whose tags are the merged option
tags; and on any input every card the line scanner emits carries the first
option-selected card type. -/
theorem c8_plain_text_line_scan (t : Str) (rest : List Str)
    (mc : Option Nat) (cp : Option Str) (tg : Option (List Str))
    (ht : t ≠ []) (jsonBranch : Str → Option (List RawFlashcard)) :
    jsonShapedSlice "Q: What is X?\nA: It is Y.".toList = none ∧
    parseFlashcardResponse jsonBranch "Q: What is X?\nA: It is Y.".toList
        ⟨mc, t :: rest, cp, tg⟩ =
      [⟨"What is X?".toList, "It is Y.".toList, t,
        some (mergeTags none tg)⟩] ∧
    ∀ (content : Str) (card : RawFlashcard),
      card ∈ parseAsPlainText content ⟨mc, t :: rest, cp, tg⟩ →
        card.type = t := by
  cases t with
  | nil => exact absurd rfl ht
  | cons c ts =>
    refine ⟨by decide, rfl, ?_⟩
    intro content card hcard
    exact parseAsPlainText_type content ⟨mc, (c :: ts) :: rest, cp, tg⟩
      card hcard

/-- C8 witness: the scan at concrete options selecting only OneWay. -/
theorem c8_plain_text_line_scan_witness :
    jsonShapedSlice "Q: What is X?\nA: It is Y.".toList = none ∧
    parseFlashcardResponse (fun _ => none)
        "Q: What is X?\nA: It is Y.".toList
        ⟨none, ["oneway".toList], none, none⟩ =
      [⟨"What is X?".toList, "It is Y.".toList, "oneway".toList,
        some (mergeTags none none)⟩] :=
  ⟨(c8_plain_text_line_scan "oneway".toList [] none none none (by decide)
      (fun _ => none)).1,
   (c8_plain_text_line_scan "oneway".toList [] none none none (by decide)
      (fun _ => none)).2.1⟩

end DeckForge
